import Mathlib

/-!
# Verification of the PyBaMM core spec against the source

This file embeds, in Lean 4, the parts of the PyBaMM repository that the
frozen claims are about:

* the finite-volume macroscale mesh (`FiniteVolumeMacroMesh`), whose
  implementation is not present under `src/` (only its tests are), so it is
  modelled from the specification and from the concrete properties that the
  test file `src/tests/test_discretisations/test_finite_volume_meshes.py`
  asserts;
* the expression tree (variables, broadcasts, integrals, min/max, events)
  with domain-stack semantics modelled from the specification;
* the `FickianSingleSizeDistribution` submodel
  (`src/pybamm/models/submodels/particle/size_distribution/fickian_single_distribution.py`),
  embedded method by method, with Python dictionary lookups made explicit as
  `Except`-valued computations (a failed lookup is a `KeyError`, a use of a
  name bound in no branch is an `UnboundLocalError`).

Real numbers in the mesh are represented by rationals, so the floating-point
"almost equal" assertions of the tests become exact equalities here.
-/

namespace PyBaMM

/-! ## Finite-volume macroscale mesh -/

/-- Modelled from the spec: the `FiniteVolumeMacroMesh` implementation is not
under `src/` (only `src/tests/test_discretisations/test_finite_volume_meshes.py`
is).  `linspace a b n` is the uniform grid of `n` points from `a` to `b`,
as produced by `np.linspace`. -/
def linspace (a b : ℚ) (n : ℕ) : List ℚ :=
  (List.range n).map (fun (i : ℕ) => a + (i : ℚ) * (b - a) / ((n : ℚ) - 1))

/-- Midpoints of consecutive entries of a list: the finite-volume node
positions determined by a list of edge positions. -/
def midpoints : List ℚ → List ℚ
  | a :: b :: rest => (a + b) / 2 :: midpoints (b :: rest)
  | _ => []

/-- Modelled from the spec: a `SubMesh` holds the ordered edge positions of
one domain; its nodes are the cell midpoints. -/
structure SubMesh where
  edges : List ℚ
deriving DecidableEq

/-- The node (cell-centre) positions of a sub-mesh. -/
def SubMesh.nodes (s : SubMesh) : List ℚ := midpoints s.edges

/-- The number of mesh points (`npts`) of a sub-mesh: the number of nodes. -/
def SubMesh.npts (s : SubMesh) : ℕ := s.nodes.length

/-- Modelled from the spec: the `FiniteVolumeMacroMesh` configuration — the
dimensionless widths of the negative electrode and separator (the positive
electrode extends to the domain end `1`) and the three sub-domain mesh point
counts (resolution knobs). -/
structure FiniteVolumeMacroMesh where
  ln : ℚ
  ls : ℚ
  neg_mesh_points : ℕ
  sep_mesh_points : ℕ
  pos_mesh_points : ℕ

namespace FiniteVolumeMacroMesh

/-- Total number of edge positions of the composite "whole cell" mesh: each
of the two shared interface edges is counted once. -/
def total_mesh_points (m : FiniteVolumeMacroMesh) : ℕ :=
  m.neg_mesh_points + (m.sep_mesh_points - 2) + m.pos_mesh_points

/-- The sub-mesh of the "negative electrode" domain, spanning `[0, ln]`. -/
def negativeElectrode (m : FiniteVolumeMacroMesh) : SubMesh :=
  ⟨linspace 0 m.ln m.neg_mesh_points⟩

/-- The sub-mesh of the "separator" domain, spanning `[ln, ln + ls]`. -/
def separator (m : FiniteVolumeMacroMesh) : SubMesh :=
  ⟨linspace m.ln (m.ln + m.ls) m.sep_mesh_points⟩

/-- The sub-mesh of the "positive electrode" domain, spanning `[ln + ls, 1]`. -/
def positiveElectrode (m : FiniteVolumeMacroMesh) : SubMesh :=
  ⟨linspace (m.ln + m.ls) 1 m.pos_mesh_points⟩

/-- The composite "whole cell" mesh: the sub-domain edge arrays concatenated
in order, with each shared interface edge kept once. -/
def wholeCell (m : FiniteVolumeMacroMesh) : SubMesh :=
  ⟨m.negativeElectrode.edges ++ m.separator.edges.tail
      ++ m.positiveElectrode.edges.tail⟩

end FiniteVolumeMacroMesh

/-! ## Expression tree -/

/-- Python's `str.lower()`, modelled structurally over the character list. -/
def strLower (s : String) : String := ⟨s.data.map Char.toLower⟩

/-- The expression-tree nodes that the `FickianSingleSizeDistribution`
submodel constructs: scalars, named variables with a domain stack, parameter
constants and parameter functions (`C_n`, `D_n(c, T)`, `c_n_init(x)`, ...),
arithmetic operators, spatial operators (`grad`, `div`, `Integral`), the two
broadcast operators, the surface (boundary-value) operator and `min`/`max`
reductions used by events.  The domain stack of a node lists its domains
innermost (primary) first. -/
inductive Expr where
  | Scalar (v : ℚ)
  | Variable (name : String) (domains : List String)
  | SpatialVariable (name : String) (domains : List String)
  | Param (name : String)
  | ParamFun1 (name : String) (a : Expr)
  | ParamFun2 (name : String) (a b : Expr)
  | Add (a b : Expr)
  | Sub (a b : Expr)
  | Mul (a b : Expr)
  | Div (a b : Expr)
  | Neg (a : Expr)
  | Pow (a : Expr) (n : ℕ)
  | Grad (a : Expr)
  | DivOp (a : Expr)
  | Integral (a : Expr) (v : Expr)
  | PrimaryBroadcast (a : Expr) (d : String)
  | SecondaryBroadcast (a : Expr) (d : String)
  | Surf (a : Expr)
  | EMin (a : Expr)
  | EMax (a : Expr)
deriving DecidableEq

/-- Modelled from the spec: the domain-stack composition rules of the
expression tree (the `pybamm` node classes are not under `src/`).  Every
node's domain stack is derived from its children's stacks: a
`PrimaryBroadcast` inserts the broadcast domain as the new innermost
(primary) domain, a `SecondaryBroadcast` keeps the primary domain and
inserts the broadcast domain as the new secondary domain, an `Integral`
removes the integration variable's domain, binary arithmetic takes the
richer child stack, and a `Surf` (boundary value) drops the innermost
domain. -/
def Expr.domains : Expr → List String
  | .Scalar _ => []
  | .Variable _ ds => ds
  | .SpatialVariable _ ds => ds
  | .Param _ => []
  | .ParamFun1 _ a => a.domains
  | .ParamFun2 _ a b => if a.domains = [] then b.domains else a.domains
  | .Add a b => if a.domains = [] then b.domains else a.domains
  | .Sub a b => if a.domains = [] then b.domains else a.domains
  | .Mul a b => if a.domains = [] then b.domains else a.domains
  | .Div a b => if a.domains = [] then b.domains else a.domains
  | .Neg a => a.domains
  | .Pow a _ => a.domains
  | .Grad a => a.domains
  | .DivOp a => a.domains
  | .Integral a v => a.domains.filter (fun d => decide (some d ≠ v.domains.head?))
  | .PrimaryBroadcast a d => d :: a.domains
  | .SecondaryBroadcast a d =>
      match a.domains with
      | [] => [d]
      | p :: rest => p :: d :: rest
  | .Surf a => a.domains.tail
  | .EMin _ => []
  | .EMax _ => []

/-- A variables mapping, as built up by the submodel protocol: a Python
dictionary keyed by variable name. -/
abbrev VarMap := String → Option Expr

/-- Python `dict.update`: later entries shadow the existing mapping. -/
def VarMap.update (m : VarMap) (entries : List (String × Expr)) : VarMap :=
  fun k =>
    match entries.lookup k with
    | some v => some v
    | none => m k

/-- A fresh dictionary holding exactly the given entries. -/
def VarMap.ofEntries (entries : List (String × Expr)) : VarMap :=
  VarMap.update (fun _ => none) entries

/-- A Python dictionary subscript `variables[k]`: returns the value, or
raises a `KeyError` naming the missing key. -/
def fetch (m : VarMap) (k : String) : Except String Expr :=
  match m k with
  | some v => Except.ok v
  | none => Except.error k

/-! Compound dictionary keys used by `FickianSingleSizeDistribution`
(`src/pybamm/models/submodels/particle/size_distribution/fickian_single_distribution.py`);
`d` is the submodel's domain, `"Negative"` or `"Positive"` in intended use. -/

def kConcDist (d : String) : String :=
  "X-averaged " ++ strLower d ++ " particle concentration distribution"

def kSurfConcDist (d : String) : String :=
  "X-averaged " ++ strLower d ++ " particle surface concentration distribution"

def kSizes (d : String) : String := d ++ " particle sizes"

def kTemp (d : String) : String :=
  "X-averaged " ++ strLower d ++ " electrode temperature"

def kAreaDist (d : String) : String :=
  "X-averaged " ++ strLower d ++ " area-weighted particle-size distribution"

def kVolDist (d : String) : String :=
  "X-averaged " ++ strLower d ++ " volume-weighted particle-size distribution"

def kFluxDist (d : String) : String :=
  "X-averaged " ++ strLower d ++ " particle flux distribution"

def kCurrentDist (d : String) : String :=
  "X-averaged " ++ strLower d ++ " electrode interfacial current density distribution"

/-! Base-class helpers of the submodel.  Their implementations live in the
base classes (`BaseSizeDistribution`, `BaseParticle`), which are not under
`src/`, so the entries they register are modelled from the spec. -/

/-- Modelled from the spec: `_get_distribution_variables(R)` registers the
particle sizes variable and the area- and volume-weighted particle-size
distributions for the submodel's domain. -/
def getDistributionVariables (d : String) (R : Expr) : List (String × Expr) :=
  [ (kSizes d, R),
    (kVolDist d,
      Expr.Variable (kVolDist d) [strLower d ++ " particle size", "current collector"]),
    (kAreaDist d,
      Expr.Variable (kAreaDist d) [strLower d ++ " particle size", "current collector"]) ]

/-- Modelled from the spec: `_get_standard_concentration_distribution_variables(c)`
registers the (R-dependent) concentration distribution and its surface
(boundary) value. -/
def standardConcentrationDistributionVariables (d : String) (c : Expr) :
    List (String × Expr) :=
  [ (kConcDist d, c), (kSurfConcDist d, Expr.Surf c) ]

/-- Modelled from the spec: `_get_standard_concentration_variables(c_s, c_s_xav)`
registers the R-averaged concentration variables. -/
def standardConcentrationVariables (d : String) (c_s c_s_xav : Expr) :
    List (String × Expr) :=
  [ (d ++ " particle concentration", c_s),
    ("X-averaged " ++ strLower d ++ " particle concentration", c_s_xav) ]

/-- Modelled from the spec: `_get_standard_flux_variables(N_s, N_s_xav)`
registers the R-averaged flux variables. -/
def standardFluxVariables (d : String) (N_s N_s_xav : Expr) :
    List (String × Expr) :=
  [ (d ++ " particle flux", N_s),
    ("X-averaged " ++ strLower d ++ " particle flux", N_s_xav) ]

/-- Modelled from the spec: `_get_total_concentration_variables(variables)`
derives the total-lithium output from the registered averaged
concentration. -/
def totalConcentrationVariables (d : String) (vars : VarMap) :
    List (String × Expr) :=
  [ ("Total lithium in " ++ strLower d ++ " electrode [mol]",
      match vars ("X-averaged " ++ strLower d ++ " particle concentration") with
      | some c => c
      | none => Expr.Scalar 0) ]

/-! ## The `FickianSingleSizeDistribution` submodel, method by method -/

/-- The `if self.domain == "Negative" ... elif self.domain == "Positive"`
branch at the top of `get_fundamental_variables` (source lines 30–70): it
binds the concentration-distribution variable and the particle-size spatial
variable `R`, and binds nothing for any other domain. -/
def bindFundamental (domain : String) : Option (Expr × Expr) :=
  if domain = "Negative" then
    some (Expr.Variable "X-averaged negative particle concentration distribution"
            ["negative particle", "negative particle size", "current collector"],
          Expr.SpatialVariable "R_n" ["negative particle size", "current collector"])
  else if domain = "Positive" then
    some (Expr.Variable "X-averaged positive particle concentration distribution"
            ["positive particle", "positive particle size", "current collector"],
          Expr.SpatialVariable "R_p" ["positive particle size", "current collector"])
  else none

/-- `get_fundamental_variables` (source lines 29–95).  When neither branch
was taken, the first use of the unbound name `R` raises an
`UnboundLocalError`. -/
def get_fundamental_variables (domain : String) : Except String VarMap :=
  match bindFundamental domain with
  | none => Except.error "UnboundLocalError: R"
  | some (c_s_xav_distribution, R) =>
    let vars := VarMap.ofEntries (getDistributionVariables domain R)
    let vars :=
      vars.update (standardConcentrationDistributionVariables domain c_s_xav_distribution)
    match vars (kVolDist domain) with
    | none => Except.error (kVolDist domain)
    | some f_v_dist =>
      let c_s_xav := Expr.Integral (Expr.Mul f_v_dist c_s_xav_distribution) R
      let c_s := Expr.SecondaryBroadcast c_s_xav (strLower domain ++ " electrode")
      Except.ok (vars.update (standardConcentrationVariables domain c_s c_s_xav))

/-- `get_coupled_variables` (source lines 97–145): reads the concentration
distribution, the particle sizes and the x-averaged temperature, builds the
flux distribution, and extends the mapping with the flux,
distribution-flux and total-concentration entries. -/
def get_coupled_variables (domain : String) (vars : VarMap) :
    Except String VarMap := do
  let c_s_xav_distribution ← fetch vars (kConcDist domain)
  let R_spatial_variable ← fetch vars (kSizes domain)
  let T0 ← fetch vars (kTemp domain)
  let T1 := Expr.PrimaryBroadcast T0 (strLower domain ++ " particle size")
  let T_k_xav := Expr.PrimaryBroadcast T1 (strLower domain ++ " particle")
  let N_s_xav_distribution ←
    if domain = "Negative" then
      Except.ok (Expr.Neg (Expr.Mul
        (Expr.ParamFun2 "D_n" c_s_xav_distribution T_k_xav)
        (Expr.Grad c_s_xav_distribution)))
    else if domain = "Positive" then
      Except.ok (Expr.Neg (Expr.Mul
        (Expr.ParamFun2 "D_p" c_s_xav_distribution T_k_xav)
        (Expr.Grad c_s_xav_distribution)))
    else Except.error "UnboundLocalError: N_s_xav_distribution"
  let f_a_dist ← fetch vars (kAreaDist domain)
  let f_a_dist2 := Expr.PrimaryBroadcast f_a_dist (strLower domain ++ " particle")
  let N_s_xav := Expr.Integral (Expr.Mul f_a_dist2 N_s_xav_distribution) R_spatial_variable
  let N_s := Expr.SecondaryBroadcast N_s_xav (strLower domain ++ " electrode")
  let variables1 := vars.update (standardFluxVariables domain N_s N_s_xav)
  let variables2 := variables1.update [(kFluxDist domain, N_s_xav_distribution)]
  let variables3 := variables2.update (totalConcentrationVariables domain variables2)
  Except.ok variables3

/-- The keys that `get_coupled_variables` writes into the mapping. -/
def writtenKeys (d : String) : List String :=
  [ d ++ " particle flux",
    "X-averaged " ++ strLower d ++ " particle flux",
    kFluxDist d,
    "Total lithium in " ++ strLower d ++ " electrode [mol]" ]

/-- The keys that `get_coupled_variables` reads from the mapping. -/
def requiredKeys (d : String) : List String :=
  [kConcDist d, kSizes d, kTemp d, kAreaDist d]

/-- `set_rhs` (source lines 147–173): returns the rhs entry registered for
the concentration distribution, or `none` when the `if`/`elif` assigned
nothing (any domain other than `"Negative"`/`"Positive"`). -/
def set_rhs (domain : String) (vars : VarMap) :
    Except String (Option (Expr × Expr)) := do
  let c_s_xav_distribution ← fetch vars (kConcDist domain)
  let N_s_xav_distribution ← fetch vars (kFluxDist domain)
  let R_spatial_variable ← fetch vars (kSizes domain)
  let R := Expr.PrimaryBroadcast R_spatial_variable (strLower domain ++ " particle")
  if domain = "Negative" then
    Except.ok (some (c_s_xav_distribution,
      Expr.Div
        (Expr.Mul (Expr.Neg (Expr.Div (Expr.Scalar 1) (Expr.Param "C_n")))
          (Expr.DivOp N_s_xav_distribution))
        (Expr.Pow R 2)))
  else if domain = "Positive" then
    Except.ok (some (c_s_xav_distribution,
      Expr.Div
        (Expr.Mul (Expr.Neg (Expr.Div (Expr.Scalar 1) (Expr.Param "C_p")))
          (Expr.DivOp N_s_xav_distribution))
        (Expr.Pow R 2)))
  else
    Except.ok none

/-- `set_boundary_conditions` (source lines 175–225): returns the boundary
conditions registered for the concentration distribution — `(Scalar 0,
Neumann)` on the left, `(rbc, Neumann)` on the right.  For a domain on which
neither branch binds `rbc`, building the dictionary raises an
`UnboundLocalError`. -/
def set_boundary_conditions (domain : String) (vars : VarMap) :
    Except String (Expr × (Expr × String) × (Expr × String)) := do
  let c_s_xav_distribution ← fetch vars (kConcDist domain)
  let c_s_surf_xav_distribution ← fetch vars (kSurfConcDist domain)
  let j_xav_distribution ← fetch vars (kCurrentDist domain)
  let R ← fetch vars (kSizes domain)
  let T0 ← fetch vars (kTemp domain)
  let T_k_xav := Expr.PrimaryBroadcast T0 (strLower domain ++ " particle size")
  let rbc ←
    if domain = "Negative" then
      Except.ok (Expr.Div
        (Expr.Div
          (Expr.Mul (Expr.Mul (Expr.Neg (Expr.Param "C_n")) R) j_xav_distribution)
          (Expr.Param "a_R_n"))
        (Expr.ParamFun2 "D_n" c_s_surf_xav_distribution T_k_xav))
    else if domain = "Positive" then
      Except.ok (Expr.Div
        (Expr.Div
          (Expr.Div
            (Expr.Mul (Expr.Mul (Expr.Neg (Expr.Param "C_p")) R) j_xav_distribution)
            (Expr.Param "a_R_p"))
          (Expr.Param "gamma_p"))
        (Expr.ParamFun2 "D_p" c_s_surf_xav_distribution T_k_xav))
    else Except.error "UnboundLocalError: rbc"
  Except.ok (c_s_xav_distribution, (Expr.Scalar 0, "Neumann"), (rbc, "Neumann"))

/-- `set_initial_conditions` (source lines 227–245): collapses the
x-dependent initial profile onto a representative slice — `c_n_init(0)` for
the negative electrode, `c_p_init(1)` for the positive — keyed by the
concentration-distribution variable.  For any other domain, the use of the
unbound name `c_init` raises an `UnboundLocalError`. -/
def set_initial_conditions (domain : String) (vars : VarMap) :
    Except String (Expr × Expr) := do
  let c_s_xav_distribution ← fetch vars (kConcDist domain)
  let c_init ←
    if domain = "Negative" then
      Except.ok (Expr.ParamFun1 "c_n_init" (Expr.Scalar 0))
    else if domain = "Positive" then
      Except.ok (Expr.ParamFun1 "c_p_init" (Expr.Scalar 1))
    else Except.error "UnboundLocalError: c_init"
  Except.ok (c_s_xav_distribution, c_init)

/-- Event kinds (`pybamm.EventType`). -/
inductive EventType where
  | TERMINATION
  | INTERPOLATION
deriving DecidableEq

/-- A named event (`pybamm.Event`): name, scalar expression, kind. -/
structure Event where
  name : String
  expression : Expr
  eventType : EventType
deriving DecidableEq

/-- The tolerance used by `set_events` (source line 253). -/
def tol : ℚ := 1 / 10000

/-- `set_events` (source lines 247–269): appends the two termination events
`min(c_surf) - tol` and `(1 - tol) - max(c_surf)` to the submodel's event
list. -/
def set_events (domain : String) (vars : VarMap) (events : List Event) :
    Except String (List Event) := do
  let c_s_surf_xav_distribution ← fetch vars (kSurfConcDist domain)
  let ev1 : Event :=
    ⟨"Minimum " ++ strLower domain ++ " particle surface concentration",
      Expr.Sub (Expr.EMin c_s_surf_xav_distribution) (Expr.Scalar tol),
      EventType.TERMINATION⟩
  let ev2 : Event :=
    ⟨"Maximum " ++ strLower domain ++ " particle surface concentration",
      Expr.Sub (Expr.Scalar (1 - tol)) (Expr.EMax c_s_surf_xav_distribution),
      EventType.TERMINATION⟩
  Except.ok (events ++ [ev1, ev2])

/-! ## Evaluation semantics

The numeric evaluation of discretised expressions is performed by the
solver-facing layer, which is not under `src/`; it is modelled from the
spec: a discretised variable evaluates to its vector of nodal values, and
the event functions reduce such a vector with `min`/`max` to a scalar whose
sign change signals termination. -/

/-- Minimum entry of a list of rationals (`none` on the empty list). -/
def listMin : List ℚ → Option ℚ
  | [] => none
  | a :: t => some (t.foldl min a)

/-- Maximum entry of a list of rationals (`none` on the empty list). -/
def listMax : List ℚ → Option ℚ
  | [] => none
  | a :: t => some (t.foldl max a)

/-- A discretisation context: the vector of nodal values of each named
discretised variable. -/
abbrev DiscreteEnv := String → Option (List ℚ)

/-- Modelled from the spec: vector evaluation of a discretised variable. -/
def evalVec (env : DiscreteEnv) : Expr → Option (List ℚ)
  | .Variable n _ => env n
  | .SpatialVariable n _ => env n
  | _ => none

/-- Modelled from the spec: scalar evaluation of an event expression —
`pybamm.min`/`pybamm.max` reduce the discretised vector of their operand,
and arithmetic combines scalars. -/
def evalScalar (env : DiscreteEnv) : Expr → Option ℚ
  | .Scalar v => some v
  | .Sub a b =>
      match evalScalar env a, evalScalar env b with
      | some x, some y => some (x - y)
      | _, _ => none
  | .Add a b =>
      match evalScalar env a, evalScalar env b with
      | some x, some y => some (x + y)
      | _, _ => none
  | .EMin a => (evalVec env a).bind listMin
  | .EMax a => (evalVec env a).bind listMax
  | _ => none

/-! ## Algebraic simplification

The algebraic-simplification pass exercised by
`src/tests/integration/test_models/test_full_battery_models/test_lead_acid/test_composite.py`
(`evaluate_model(simplify=True)`) lives in the expression-tree library,
which is not under `src/`; it is modelled from the spec as a
value-preserving bottom-up pass: constant folding plus the arithmetic
identities `x + 0`, `0 + x`, `x - 0`, `1 * x`, `x * 1` and `x / 1`. -/

/-- Pointwise numeric evaluation of an expression over an assignment of
scalars to named leaves (`none` where a leaf is unassigned or the operator
needs a discretisation context). -/
def evalE (env : String → Option ℚ) : Expr → Option ℚ
  | .Scalar v => some v
  | .Variable n _ => env n
  | .SpatialVariable n _ => env n
  | .Param n => env n
  | .Add a b =>
      match evalE env a, evalE env b with
      | some x, some y => some (x + y)
      | _, _ => none
  | .Sub a b =>
      match evalE env a, evalE env b with
      | some x, some y => some (x - y)
      | _, _ => none
  | .Mul a b =>
      match evalE env a, evalE env b with
      | some x, some y => some (x * y)
      | _, _ => none
  | .Div a b =>
      match evalE env a, evalE env b with
      | some x, some y => some (x / y)
      | _, _ => none
  | .Neg a => (evalE env a).map (fun x => -x)
  | .Pow a n => (evalE env a).map (fun x => x ^ n)
  | _ => none

/-- The scalar value of a literal node, if it is one. -/
def asScalar : Expr → Option ℚ
  | .Scalar v => some v
  | _ => none

/-- Simplifying addition node constructor. -/
def mkAdd (a b : Expr) : Expr :=
  match asScalar a, asScalar b with
  | some x, some y => .Scalar (x + y)
  | some x, none => if x = 0 then b else .Add a b
  | none, some y => if y = 0 then a else .Add a b
  | none, none => .Add a b

/-- Simplifying subtraction node constructor. -/
def mkSub (a b : Expr) : Expr :=
  match asScalar a, asScalar b with
  | some x, some y => .Scalar (x - y)
  | none, some y => if y = 0 then a else .Sub a b
  | _, _ => .Sub a b

/-- Simplifying multiplication node constructor. -/
def mkMul (a b : Expr) : Expr :=
  match asScalar a, asScalar b with
  | some x, some y => .Scalar (x * y)
  | some x, none => if x = 1 then b else .Mul a b
  | none, some y => if y = 1 then a else .Mul a b
  | none, none => .Mul a b

/-- Simplifying division node constructor. -/
def mkDiv (a b : Expr) : Expr :=
  match asScalar a, asScalar b with
  | some x, some y => .Scalar (x / y)
  | none, some y => if y = 1 then a else .Div a b
  | _, _ => .Div a b

/-- Simplifying negation node constructor. -/
def mkNeg (a : Expr) : Expr :=
  match asScalar a with
  | some x => .Scalar (-x)
  | none => .Neg a

/-- Simplifying power node constructor. -/
def mkPow (a : Expr) (n : ℕ) : Expr :=
  match asScalar a with
  | some x => .Scalar (x ^ n)
  | none => .Pow a n

/-- Modelled from the spec: the algebraic-simplification pass, bottom-up
over the arithmetic nodes. -/
def simplify : Expr → Expr
  | .Add a b => mkAdd (simplify a) (simplify b)
  | .Sub a b => mkSub (simplify a) (simplify b)
  | .Mul a b => mkMul (simplify a) (simplify b)
  | .Div a b => mkDiv (simplify a) (simplify b)
  | .Neg a => mkNeg (simplify a)
  | .Pow a n => mkPow (simplify a) n
  | e => e

/-! ### Cached known evaluations (`use_known_evals`)

Evaluation carries a table of already-computed node values: since the
expression DAG shares structurally identical subexpressions across
equations, the evaluator consults the table before recursing and records
every value it computes, threading the table through the whole model. -/

/-- A table of known evaluations: computed values keyed by the evaluated
node. -/
abbrev KnownEvals := List (Expr × Option ℚ)

/-- Consistency of a known-evaluations table with the plain evaluator:
every recorded value is the true value of its node. -/
def CacheOK (env : String → Option ℚ) (cache : KnownEvals) : Prop :=
  ∀ p ∈ cache, p.2 = evalE env p.1

/-- Record the result of a binary arithmetic node computed from its
children's cached evaluations: the value (or `none` when a child failed)
is stored in the table under the node. -/
def recordBin (e : Expr) (op : ℚ → ℚ → ℚ) (x y : Option ℚ) (c : KnownEvals) :
    Option ℚ × KnownEvals :=
  match x, y with
  | some xv, some yv => (some (op xv yv), (e, some (op xv yv)) :: c)
  | _, _ => ((none : Option ℚ), (e, (none : Option ℚ)) :: c)

/-- Record the result of a unary arithmetic node computed from its child's
cached evaluation. -/
def recordUn (e : Expr) (op : ℚ → ℚ) (x : Option ℚ) (c : KnownEvals) :
    Option ℚ × KnownEvals :=
  match x with
  | some xv => (some (op xv), (e, some (op xv)) :: c)
  | none => ((none : Option ℚ), (e, (none : Option ℚ)) :: c)

/-- Modelled from the spec: evaluation with cached known evaluations —
look the node up in the table first, otherwise compute it on the
(threaded) table and record the result.  Returns the value and the
updated table. -/
def evalKnown (env : String → Option ℚ) : Expr → KnownEvals → Option ℚ × KnownEvals
  | .Scalar v, cache =>
      match List.lookup (Expr.Scalar v) cache with
      | some w => (w, cache)
      | none => (some v, (Expr.Scalar v, some v) :: cache)
  | .Variable n ds, cache =>
      match List.lookup (Expr.Variable n ds) cache with
      | some w => (w, cache)
      | none => (env n, (Expr.Variable n ds, env n) :: cache)
  | .SpatialVariable n ds, cache =>
      match List.lookup (Expr.SpatialVariable n ds) cache with
      | some w => (w, cache)
      | none => (env n, (Expr.SpatialVariable n ds, env n) :: cache)
  | .Param n, cache =>
      match List.lookup (Expr.Param n) cache with
      | some w => (w, cache)
      | none => (env n, (Expr.Param n, env n) :: cache)
  | .Add a b, cache =>
      match List.lookup (Expr.Add a b) cache with
      | some w => (w, cache)
      | none =>
          recordBin (Expr.Add a b) (fun x y => x + y)
            (evalKnown env a cache).1
            (evalKnown env b (evalKnown env a cache).2).1
            (evalKnown env b (evalKnown env a cache).2).2
  | .Sub a b, cache =>
      match List.lookup (Expr.Sub a b) cache with
      | some w => (w, cache)
      | none =>
          recordBin (Expr.Sub a b) (fun x y => x - y)
            (evalKnown env a cache).1
            (evalKnown env b (evalKnown env a cache).2).1
            (evalKnown env b (evalKnown env a cache).2).2
  | .Mul a b, cache =>
      match List.lookup (Expr.Mul a b) cache with
      | some w => (w, cache)
      | none =>
          recordBin (Expr.Mul a b) (fun x y => x * y)
            (evalKnown env a cache).1
            (evalKnown env b (evalKnown env a cache).2).1
            (evalKnown env b (evalKnown env a cache).2).2
  | .Div a b, cache =>
      match List.lookup (Expr.Div a b) cache with
      | some w => (w, cache)
      | none =>
          recordBin (Expr.Div a b) (fun x y => x / y)
            (evalKnown env a cache).1
            (evalKnown env b (evalKnown env a cache).2).1
            (evalKnown env b (evalKnown env a cache).2).2
  | .Neg a, cache =>
      match List.lookup (Expr.Neg a) cache with
      | some w => (w, cache)
      | none =>
          recordUn (Expr.Neg a) (fun x => -x)
            (evalKnown env a cache).1 (evalKnown env a cache).2
  | .Pow a n, cache =>
      match List.lookup (Expr.Pow a n) cache with
      | some w => (w, cache)
      | none =>
          recordUn (Expr.Pow a n) (fun x => x ^ n)
            (evalKnown env a cache).1 (evalKnown env a cache).2
  | e, cache =>
      match List.lookup e cache with
      | some w => (w, cache)
      | none => ((none : Option ℚ), (e, (none : Option ℚ)) :: cache)

/-- Evaluate a list of equations threading the known-evaluations table
from one equation to the next. -/
def evalListKnown (env : String → Option ℚ) : List Expr → KnownEvals → List (Option ℚ)
  | [], _ => []
  | e :: rest, cache =>
      (evalKnown env e cache).1
        :: evalListKnown env rest (evalKnown env e cache).2

/-! ### Conversion to python (`to_python`)

Modelled from the spec: converting an expression to python compiles it to
a flat sequence of stack-machine instructions (the analogue of the
generated python statements), which is then executed. -/

/-- One generated python statement: push a constant or a variable, apply
an arithmetic operation to the top of the stack, or fail (for operators
with no pointwise python lowering). -/
inductive PyInstr where
  | pushConst (v : ℚ)
  | pushVar (n : String)
  | addI
  | subI
  | mulI
  | divI
  | negI
  | powI (n : ℕ)
  | failI
deriving DecidableEq

/-- Compile an expression to postfix stack-machine instructions. -/
def compileToPython : Expr → List PyInstr
  | .Scalar v => [.pushConst v]
  | .Variable n _ => [.pushVar n]
  | .SpatialVariable n _ => [.pushVar n]
  | .Param n => [.pushVar n]
  | .Add a b => compileToPython a ++ compileToPython b ++ [.addI]
  | .Sub a b => compileToPython a ++ compileToPython b ++ [.subI]
  | .Mul a b => compileToPython a ++ compileToPython b ++ [.mulI]
  | .Div a b => compileToPython a ++ compileToPython b ++ [.divI]
  | .Neg a => compileToPython a ++ [.negI]
  | .Pow a n => compileToPython a ++ [.powI n]
  | _ => [.failI]

/-- Execute compiled python statements on a value stack. -/
def runPy (env : String → Option ℚ) : List PyInstr → List ℚ → Option (List ℚ)
  | [], st => some st
  | .pushConst v :: rest, st => runPy env rest (v :: st)
  | .pushVar n :: rest, st =>
      match env n with
      | some v => runPy env rest (v :: st)
      | none => none
  | .addI :: rest, y :: x :: st => runPy env rest ((x + y) :: st)
  | .subI :: rest, y :: x :: st => runPy env rest ((x - y) :: st)
  | .mulI :: rest, y :: x :: st => runPy env rest ((x * y) :: st)
  | .divI :: rest, y :: x :: st => runPy env rest ((x / y) :: st)
  | .negI :: rest, x :: st => runPy env rest ((-x) :: st)
  | .powI n :: rest, x :: st => runPy env rest ((x ^ n) :: st)
  | _ :: _, _ => none

/-- Evaluate one expression through its python conversion. -/
def pyEvaluate (env : String → Option ℚ) (e : Expr) : Option ℚ :=
  match runPy env (compileToPython e) [] with
  | some (v :: _) => some v
  | _ => none

/-- Modelled from the spec: `OptimisationsTest.evaluate_model` — evaluate
every equation of an assembled model, after the simplification pass when
`simplifyFlag` is set, through the known-evaluations cache when
`use_known_evals` is set, and through the python conversion when
`to_python` is set (the keyword arguments of the integration test). -/
def evaluate_model (simplifyFlag use_known_evals to_python : Bool)
    (model : List Expr) (env : String → Option ℚ) : List (Option ℚ) :=
  if to_python then
    (model.map (fun e => if simplifyFlag then simplify e else e)).map (pyEvaluate env)
  else if use_known_evals then
    evalListKnown env (model.map (fun e => if simplifyFlag then simplify e else e)) []
  else
    (model.map (fun e => if simplifyFlag then simplify e else e)).map (evalE env)

/-! ## Concrete inputs used by the witness theorems -/

/-- A concrete mesh configuration: `ln = 1/3`, `ls = 1/3`, and 3/3/4 mesh
points. -/
def meshW : FiniteVolumeMacroMesh := ⟨1/3, 1/3, 3, 3, 4⟩

/-- The everywhere-undefined variables mapping. -/
def varsEmpty : VarMap := fun _ => none

/-- A concrete variables mapping holding every key the `"Negative"`
submodel methods read. -/
def varsW : VarMap :=
  VarMap.ofEntries
    [ (kConcDist "Negative", Expr.Variable "c" ["negative particle"]),
      (kSurfConcDist "Negative", Expr.Variable "c_surf" ["negative particle size"]),
      (kSizes "Negative", Expr.SpatialVariable "R_n" ["negative particle size"]),
      (kTemp "Negative", Expr.Variable "T" []),
      (kAreaDist "Negative", Expr.Variable "f_a" ["negative particle size"]),
      (kVolDist "Negative", Expr.Variable "f_v" ["negative particle size"]),
      (kFluxDist "Negative", Expr.Variable "N" ["negative particle"]),
      (kCurrentDist "Negative", Expr.Variable "j" []) ]

/-- A concrete variables mapping holding the keys that `set_rhs` reads for
the domain `"Separator"`, which the submodel does not handle. -/
def varsSep : VarMap :=
  VarMap.ofEntries
    [ (kConcDist "Separator", Expr.Variable "c" []),
      (kFluxDist "Separator", Expr.Variable "N" []),
      (kSizes "Separator", Expr.SpatialVariable "R" []) ]

/-- The variables mapping produced by `get_coupled_variables` on `varsW`
(total function for use in closed witness statements). -/
def coupledW : VarMap :=
  match get_coupled_variables "Negative" varsW with
  | Except.ok v => v
  | Except.error _ => fun _ => none

/-- A concrete expression used to witness the broadcast domain rules: an
x-averaged concentration over particle and current collector. -/
def exprW : Expr :=
  Expr.Variable "X-averaged negative particle concentration"
    ["negative particle", "current collector"]

/-- A concrete discretisation context for the event witness: the surface
concentration vector is `[1/2, 1/4]`. -/
def envW : DiscreteEnv :=
  fun n => if n = "c_surf" then some [1/2, 1/4] else none

/-! Basic lemmas about `linspace` and `midpoints`. -/

theorem length_linspace (a b : ℚ) (n : ℕ) : (linspace a b n).length = n := by
  simp [linspace]

theorem linspace_ne_nil (a b : ℚ) (n : ℕ) (h : 1 ≤ n) : linspace a b n ≠ [] := by
  intro hnil
  have := length_linspace a b n
  rw [hnil] at this
  simp at this
  omega

theorem head_linspace (a b : ℚ) (n : ℕ) (h : 1 ≤ n) :
    (linspace a b n).head? = some a := by
  cases n with
  | zero => omega
  | succ k =>
    simp [linspace, List.range_succ_eq_map]

theorem getLast_linspace (a b : ℚ) (n : ℕ) (h : 2 ≤ n) :
    (linspace a b n).getLast? = some b := by
  have hlen : (linspace a b n).length = n := length_linspace a b n
  rw [List.getLast?_eq_getElem?]
  rw [hlen]
  have hn : n - 1 < n := by omega
  rw [linspace]
  rw [List.getElem?_map]
  rw [List.getElem?_range hn]
  simp only [Option.map_some']
  congr 1
  have hcast : ((n - 1 : ℕ) : ℚ) = (n : ℚ) - 1 := by
    have : (1 : ℕ) ≤ n := by omega
    push_cast [Nat.cast_sub this]
    ring
  rw [hcast]
  have hne : (n : ℚ) - 1 ≠ 0 := by
    have : (2 : ℚ) ≤ (n : ℚ) := by exact_mod_cast h
    intro hz
    have : (n : ℚ) = 1 := by linarith
    linarith
  field_simp

theorem length_midpoints (l : List ℚ) : (midpoints l).length = l.length - 1 := by
  induction l with
  | nil => simp [midpoints]
  | cons a t ih =>
    cases t with
    | nil => simp [midpoints]
    | cons b r =>
      simp only [midpoints, List.length_cons] at *
      omega

/-- Splitting lemma for finite-volume nodes: if two edge lists share their
interface point (the last edge of the first is the first edge of the second),
then the nodes of the deduplicated concatenation are the concatenation of the
nodes. -/
theorem midpoints_append (xs ys : List ℚ) (e : ℚ) (hx : xs.getLast? = some e)
    (hy : ys.head? = some e) :
    midpoints (xs ++ ys.tail) = midpoints xs ++ midpoints ys := by
  induction xs with
  | nil => simp at hx
  | cons a t ih =>
    cases t with
    | nil =>
      simp only [List.getLast?_singleton, Option.some_inj] at hx
      subst hx
      cases ys with
      | nil => simp at hy
      | cons y yt =>
        simp only [List.head?_cons, Option.some_inj] at hy
        subst hy
        simp [midpoints]
    | cons b r =>
      rw [List.getLast?_cons_cons] at hx
      have step := ih hx
      simp only [List.cons_append, midpoints] at *
      exact congrArg (fun l => (a + b) / 2 :: l) step

theorem tail_getLast (l : List ℚ) (h : l.tail ≠ []) :
    l.tail.getLast? = l.getLast? := by
  cases l with
  | nil => simp at h
  | cons a t =>
    cases t with
    | nil => simp at h
    | cons b r => simp [List.getLast?_cons_cons]

namespace FiniteVolumeMacroMesh

theorem negativeElectrode_edges_getLast (m : FiniteVolumeMacroMesh)
    (h : 2 ≤ m.neg_mesh_points) :
    m.negativeElectrode.edges.getLast? = some m.ln :=
  getLast_linspace 0 m.ln m.neg_mesh_points h

theorem separator_edges_head (m : FiniteVolumeMacroMesh)
    (h : 1 ≤ m.sep_mesh_points) :
    m.separator.edges.head? = some m.ln :=
  head_linspace m.ln (m.ln + m.ls) m.sep_mesh_points h

theorem separator_edges_getLast (m : FiniteVolumeMacroMesh)
    (h : 2 ≤ m.sep_mesh_points) :
    m.separator.edges.getLast? = some (m.ln + m.ls) :=
  getLast_linspace m.ln (m.ln + m.ls) m.sep_mesh_points h

theorem positiveElectrode_edges_head (m : FiniteVolumeMacroMesh)
    (h : 1 ≤ m.pos_mesh_points) :
    m.positiveElectrode.edges.head? = some (m.ln + m.ls) :=
  head_linspace (m.ln + m.ls) 1 m.pos_mesh_points h

theorem positiveElectrode_edges_getLast (m : FiniteVolumeMacroMesh)
    (h : 2 ≤ m.pos_mesh_points) :
    m.positiveElectrode.edges.getLast? = some 1 :=
  getLast_linspace (m.ln + m.ls) 1 m.pos_mesh_points h

theorem wholeCell_edges_length (m : FiniteVolumeMacroMesh) :
    m.wholeCell.edges.length
      = m.neg_mesh_points + (m.sep_mesh_points - 1) + (m.pos_mesh_points - 1) := by
  simp only [wholeCell, negativeElectrode, separator, positiveElectrode,
    List.length_append, List.length_tail, length_linspace]

end FiniteVolumeMacroMesh

/-! ## Claims C1–C3: the finite-volume macroscale mesh -/

/-- Claim C1: for every mesh built by `FiniteVolumeMacroMesh` (each
`SubMesh` and the composite "whole cell" mesh), the number of edges equals
the number of nodes plus one, and the last edge of the composite mesh
equals the domain end, `1`, for "whole cell". -/
theorem claim_C1_edges_eq_nodes_succ (m : FiniteVolumeMacroMesh)
    (hn : 2 ≤ m.neg_mesh_points) (hs : 2 ≤ m.sep_mesh_points)
    (hp : 2 ≤ m.pos_mesh_points) :
    m.negativeElectrode.edges.length = m.negativeElectrode.nodes.length + 1 ∧
    m.separator.edges.length = m.separator.nodes.length + 1 ∧
    m.positiveElectrode.edges.length = m.positiveElectrode.nodes.length + 1 ∧
    m.wholeCell.edges.length = m.wholeCell.nodes.length + 1 ∧
    m.wholeCell.edges.getLast? = some 1 := by
  have hne := length_linspace 0 m.ln m.neg_mesh_points
  have hse := length_linspace m.ln (m.ln + m.ls) m.sep_mesh_points
  have hpe := length_linspace (m.ln + m.ls) 1 m.pos_mesh_points
  have hwe := m.wholeCell_edges_length
  have hCt : m.positiveElectrode.edges.tail ≠ [] := by
    have : m.positiveElectrode.edges.tail.length = m.pos_mesh_points - 1 := by
      rw [List.length_tail]
      simp only [FiniteVolumeMacroMesh.positiveElectrode, hpe]
    intro hnil
    rw [hnil] at this
    simp at this
    omega
  refine ⟨?_, ?_, ?_, ?_, ?_⟩
  · rw [SubMesh.nodes, length_midpoints]
    simp only [FiniteVolumeMacroMesh.negativeElectrode] at *
    omega
  · rw [SubMesh.nodes, length_midpoints]
    simp only [FiniteVolumeMacroMesh.separator] at *
    omega
  · rw [SubMesh.nodes, length_midpoints]
    simp only [FiniteVolumeMacroMesh.positiveElectrode] at *
    omega
  · rw [SubMesh.nodes, length_midpoints]
    omega
  · show (m.negativeElectrode.edges ++ m.separator.edges.tail
      ++ m.positiveElectrode.edges.tail).getLast? = some 1
    rw [List.getLast?_append, tail_getLast _ hCt,
      m.positiveElectrode_edges_getLast hp]
    rfl

/-- Witness for C1 at the concrete mesh `meshW`. -/
theorem claim_C1_witness :
    meshW.negativeElectrode.edges.length = meshW.negativeElectrode.nodes.length + 1 ∧
    meshW.separator.edges.length = meshW.separator.nodes.length + 1 ∧
    meshW.positiveElectrode.edges.length = meshW.positiveElectrode.nodes.length + 1 ∧
    meshW.wholeCell.edges.length = meshW.wholeCell.nodes.length + 1 ∧
    meshW.wholeCell.edges.getLast? = some 1 :=
  claim_C1_edges_eq_nodes_succ meshW (by decide) (by decide) (by decide)

/-- Claim C2: the composite "whole cell" node array equals the
concatenation, in order, of the node arrays of "negative electrode",
"separator" and "positive electrode" (exactly, over the rationals; the
shared boundary edges between adjacent sub-domains are deduplicated, so
the node arrays concatenate with no duplication). -/
theorem claim_C2_wholeCell_nodes_concat (m : FiniteVolumeMacroMesh)
    (hn : 2 ≤ m.neg_mesh_points) (hs : 2 ≤ m.sep_mesh_points)
    (hp : 2 ≤ m.pos_mesh_points) :
    m.wholeCell.nodes =
      m.negativeElectrode.nodes ++ m.separator.nodes ++ m.positiveElectrode.nodes := by
  have hA : m.negativeElectrode.edges.getLast? = some m.ln :=
    m.negativeElectrode_edges_getLast hn
  have hBh : m.separator.edges.head? = some m.ln :=
    m.separator_edges_head (by omega)
  have hBl : m.separator.edges.getLast? = some (m.ln + m.ls) :=
    m.separator_edges_getLast hs
  have hCh : m.positiveElectrode.edges.head? = some (m.ln + m.ls) :=
    m.positiveElectrode_edges_head (by omega)
  have hBne : m.separator.edges ≠ [] :=
    linspace_ne_nil m.ln (m.ln + m.ls) m.sep_mesh_points (by omega)
  show midpoints (m.negativeElectrode.edges ++ m.separator.edges.tail
      ++ m.positiveElectrode.edges.tail) = _
  have htail : (m.separator.edges ++ m.positiveElectrode.edges.tail).tail
      = m.separator.edges.tail ++ m.positiveElectrode.edges.tail := by
    cases hB : m.separator.edges with
    | nil => exact absurd hB hBne
    | cons b bt => simp
  have hhead : (m.separator.edges ++ m.positiveElectrode.edges.tail).head?
      = some m.ln := by
    cases hB : m.separator.edges with
    | nil => exact absurd hB hBne
    | cons b bt =>
      rw [hB] at hBh
      simpa using hBh
  calc midpoints (m.negativeElectrode.edges ++ m.separator.edges.tail
          ++ m.positiveElectrode.edges.tail)
      = midpoints (m.negativeElectrode.edges
          ++ (m.separator.edges ++ m.positiveElectrode.edges.tail).tail) := by
        rw [htail, List.append_assoc]
    _ = midpoints m.negativeElectrode.edges
          ++ midpoints (m.separator.edges ++ m.positiveElectrode.edges.tail) :=
        midpoints_append _ _ m.ln hA hhead
    _ = midpoints m.negativeElectrode.edges
          ++ (midpoints m.separator.edges ++ midpoints m.positiveElectrode.edges) := by
        rw [midpoints_append _ _ (m.ln + m.ls) hBl hCh]
    _ = m.negativeElectrode.nodes ++ m.separator.nodes ++ m.positiveElectrode.nodes := by
        rw [List.append_assoc]
        rfl

/-- Witness for C2 at the concrete mesh `meshW`. -/
theorem claim_C2_witness :
    meshW.wholeCell.nodes =
      meshW.negativeElectrode.nodes ++ meshW.separator.nodes
        ++ meshW.positiveElectrode.nodes :=
  claim_C2_wholeCell_nodes_concat meshW (by decide) (by decide) (by decide)

/-- Claim C3: the composite node count equals the sum of the sub-domain
node counts, the composite edge count counts each shared interface edge
once (`total_mesh_points = neg + (sep - 2) + pos`), each `SubMesh` has
`npts` equal to its mesh point count minus one, and the whole-cell mesh
has `npts = total_mesh_points - 1`. -/
theorem claim_C3_mesh_sizes (m : FiniteVolumeMacroMesh)
    (hn : 2 ≤ m.neg_mesh_points) (hs : 2 ≤ m.sep_mesh_points)
    (hp : 2 ≤ m.pos_mesh_points) :
    m.total_mesh_points
        = m.neg_mesh_points + (m.sep_mesh_points - 2) + m.pos_mesh_points ∧
    m.negativeElectrode.npts = m.neg_mesh_points - 1 ∧
    m.separator.npts = m.sep_mesh_points - 1 ∧
    m.positiveElectrode.npts = m.pos_mesh_points - 1 ∧
    m.wholeCell.npts = m.total_mesh_points - 1 ∧
    m.wholeCell.npts
        = m.negativeElectrode.npts + m.separator.npts + m.positiveElectrode.npts ∧
    m.negativeElectrode.edges.length = m.neg_mesh_points ∧
    m.separator.edges.length = m.sep_mesh_points ∧
    m.positiveElectrode.edges.length = m.pos_mesh_points ∧
    m.wholeCell.edges.length = m.total_mesh_points := by
  have hne := length_linspace 0 m.ln m.neg_mesh_points
  have hse := length_linspace m.ln (m.ln + m.ls) m.sep_mesh_points
  have hpe := length_linspace (m.ln + m.ls) 1 m.pos_mesh_points
  have hwe := m.wholeCell_edges_length
  have h1 : m.negativeElectrode.npts = m.neg_mesh_points - 1 := by
    rw [SubMesh.npts, SubMesh.nodes, length_midpoints]
    simp only [FiniteVolumeMacroMesh.negativeElectrode] at *
    omega
  have h2 : m.separator.npts = m.sep_mesh_points - 1 := by
    rw [SubMesh.npts, SubMesh.nodes, length_midpoints]
    simp only [FiniteVolumeMacroMesh.separator] at *
    omega
  have h3 : m.positiveElectrode.npts = m.pos_mesh_points - 1 := by
    rw [SubMesh.npts, SubMesh.nodes, length_midpoints]
    simp only [FiniteVolumeMacroMesh.positiveElectrode] at *
    omega
  have h4 : m.wholeCell.npts
      = m.neg_mesh_points + (m.sep_mesh_points - 1) + (m.pos_mesh_points - 1) - 1 := by
    rw [SubMesh.npts, SubMesh.nodes, length_midpoints]
    omega
  refine ⟨rfl, h1, h2, h3, ?_, ?_, hne, hse, hpe, ?_⟩
  · rw [h4, FiniteVolumeMacroMesh.total_mesh_points]
    omega
  · rw [h4, h1, h2, h3]
    omega
  · rw [hwe, FiniteVolumeMacroMesh.total_mesh_points]
    omega

/-- Witness for C3 at the concrete mesh `meshW`. -/
theorem claim_C3_witness :
    meshW.total_mesh_points
        = meshW.neg_mesh_points + (meshW.sep_mesh_points - 2) + meshW.pos_mesh_points ∧
    meshW.negativeElectrode.npts = meshW.neg_mesh_points - 1 ∧
    meshW.separator.npts = meshW.sep_mesh_points - 1 ∧
    meshW.positiveElectrode.npts = meshW.pos_mesh_points - 1 ∧
    meshW.wholeCell.npts = meshW.total_mesh_points - 1 ∧
    meshW.wholeCell.npts
        = meshW.negativeElectrode.npts + meshW.separator.npts
            + meshW.positiveElectrode.npts ∧
    meshW.negativeElectrode.edges.length = meshW.neg_mesh_points ∧
    meshW.separator.edges.length = meshW.sep_mesh_points ∧
    meshW.positiveElectrode.edges.length = meshW.pos_mesh_points ∧
    meshW.wholeCell.edges.length = meshW.total_mesh_points :=
  claim_C3_mesh_sizes meshW (by decide) (by decide) (by decide)

/-! ## Claim C4: initial conditions collapse onto a representative x-slice -/

/-- Claim C4: `set_initial_conditions` registers `c_n_init` evaluated at
`x = 0` when the domain is `"Negative"` and `c_p_init` evaluated at `x = 1`
when the domain is `"Positive"`, keyed by the x-averaged particle
concentration distribution variable read from the mapping. -/
theorem claim_C4_initial_conditions (vars : VarMap) :
    (∀ c, vars (kConcDist "Negative") = some c →
      set_initial_conditions "Negative" vars
        = Except.ok (c, Expr.ParamFun1 "c_n_init" (Expr.Scalar 0))) ∧
    (∀ c, vars (kConcDist "Positive") = some c →
      set_initial_conditions "Positive" vars
        = Except.ok (c, Expr.ParamFun1 "c_p_init" (Expr.Scalar 1))) := by
  constructor
  · intro c hc
    simp only [set_initial_conditions, fetch, hc]
    rfl
  · intro c hc
    simp only [set_initial_conditions, fetch, hc]
    rfl

/-- Witness for C4 at the concrete mapping `varsW`. -/
theorem claim_C4_witness :
    set_initial_conditions "Negative" varsW
      = Except.ok (Expr.Variable "c" ["negative particle"],
          Expr.ParamFun1 "c_n_init" (Expr.Scalar 0)) :=
  (claim_C4_initial_conditions varsW).1 _ (by rfl)

/-! ## Claim C5: termination events bound the surface concentration -/

theorem lt_foldl_min (c a : ℚ) (t : List ℚ) :
    c < t.foldl min a ↔ c < a ∧ ∀ v ∈ t, c < v := by
  induction t generalizing a with
  | nil => simp
  | cons x r ih =>
    rw [List.foldl_cons, ih (min a x)]
    simp only [lt_min_iff, List.forall_mem_cons]
    tauto

theorem foldl_max_lt (c a : ℚ) (t : List ℚ) :
    t.foldl max a < c ↔ a < c ∧ ∀ v ∈ t, v < c := by
  induction t generalizing a with
  | nil => simp
  | cons x r ih =>
    rw [List.foldl_cons, ih (max a x)]
    simp only [max_lt_iff, List.forall_mem_cons]
    tauto

/-- Claim C5: `set_events` registers the two termination events
`min(c_surf) - 1e-4` and `(1 - 1e-4) - max(c_surf)`, and on any nonempty
discretised surface-concentration vector both event values are positive
exactly when every entry lies strictly inside `(1e-4, 1 - 1e-4)` — so each
event function changes sign exactly when the discretised surface
concentration crosses the corresponding bound, and not before. -/
theorem claim_C5_events (d : String) (vars : VarMap) (c : Expr)
    (hc : vars (kSurfConcDist d) = some c) (events : List Event)
    (env : DiscreteEnv) (a : ℚ) (t : List ℚ)
    (hv : evalVec env c = some (a :: t)) :
    ∃ x1 x2 : ℚ,
      set_events d vars events = Except.ok (events ++
        [⟨"Minimum " ++ strLower d ++ " particle surface concentration",
           Expr.Sub (Expr.EMin c) (Expr.Scalar tol), EventType.TERMINATION⟩,
         ⟨"Maximum " ++ strLower d ++ " particle surface concentration",
           Expr.Sub (Expr.Scalar (1 - tol)) (Expr.EMax c), EventType.TERMINATION⟩]) ∧
      evalScalar env (Expr.Sub (Expr.EMin c) (Expr.Scalar tol)) = some x1 ∧
      evalScalar env (Expr.Sub (Expr.Scalar (1 - tol)) (Expr.EMax c)) = some x2 ∧
      ((0 < x1 ∧ 0 < x2) ↔ ∀ v ∈ a :: t, tol < v ∧ v < 1 - tol) := by
  refine ⟨t.foldl min a - tol, (1 - tol) - t.foldl max a, ?_, ?_, ?_, ?_⟩
  · simp only [set_events, fetch, hc]
    rfl
  · simp [evalScalar, hv, listMin]
  · simp [evalScalar, hv, listMax]
  · constructor
    · rintro ⟨h1, h2⟩ v hv'
      have hmin : tol < t.foldl min a := by linarith
      have hmax : t.foldl max a < 1 - tol := by linarith
      rw [lt_foldl_min] at hmin
      rw [foldl_max_lt] at hmax
      rcases List.mem_cons.mp hv' with rfl | hm
      · exact ⟨hmin.1, hmax.1⟩
      · exact ⟨hmin.2 v hm, hmax.2 v hm⟩
    · intro h
      have hmin : tol < t.foldl min a := by
        rw [lt_foldl_min]
        exact ⟨(h a (List.mem_cons_self a t)).1,
          fun v hm => (h v (List.mem_cons_of_mem a hm)).1⟩
      have hmax : t.foldl max a < 1 - tol := by
        rw [foldl_max_lt]
        exact ⟨(h a (List.mem_cons_self a t)).2,
          fun v hm => (h v (List.mem_cons_of_mem a hm)).2⟩
      constructor <;> linarith

/-- Witness for C5 at a concrete mapping, vector `[1/2, 1/4]` and empty
prior event list. -/
theorem claim_C5_witness :
    ∃ x1 x2 : ℚ,
      set_events "Negative" varsW [] = Except.ok ([] ++
        [⟨"Minimum " ++ strLower "Negative" ++ " particle surface concentration",
           Expr.Sub (Expr.EMin (Expr.Variable "c_surf" ["negative particle size"]))
             (Expr.Scalar tol), EventType.TERMINATION⟩,
         ⟨"Maximum " ++ strLower "Negative" ++ " particle surface concentration",
           Expr.Sub (Expr.Scalar (1 - tol))
             (Expr.EMax (Expr.Variable "c_surf" ["negative particle size"])),
           EventType.TERMINATION⟩]) ∧
      evalScalar envW (Expr.Sub
        (Expr.EMin (Expr.Variable "c_surf" ["negative particle size"]))
        (Expr.Scalar tol)) = some x1 ∧
      evalScalar envW (Expr.Sub (Expr.Scalar (1 - tol))
        (Expr.EMax (Expr.Variable "c_surf" ["negative particle size"]))) = some x2 ∧
      ((0 < x1 ∧ 0 < x2) ↔ ∀ v ∈ (1/2 : ℚ) :: [(1/4 : ℚ)], tol < v ∧ v < 1 - tol) :=
  claim_C5_events "Negative" varsW
    (Expr.Variable "c_surf" ["negative particle size"]) (by rfl) [] envW
    (1/2) [1/4] (by rfl)

/-! ## Claim C6: simplification preserves evaluation -/

theorem asScalar_eq (a : Expr) (x : ℚ) (h : asScalar a = some x) :
    a = Expr.Scalar x := by
  cases a <;> simp_all [asScalar]

theorem evalE_mkAdd (env : String → Option ℚ) (a b : Expr) :
    evalE env (mkAdd a b) = evalE env (Expr.Add a b) := by
  rw [mkAdd]
  cases ha : asScalar a with
  | some x =>
    obtain rfl := asScalar_eq a x ha
    cases hb : asScalar b with
    | some y =>
      obtain rfl := asScalar_eq b y hb
      simp [evalE]
    | none =>
      by_cases hx : x = 0
      · subst hx
        simp only [if_pos rfl]
        cases he : evalE env b <;> simp [evalE, he]
      · simp [if_neg hx]
  | none =>
    cases hb : asScalar b with
    | some y =>
      obtain rfl := asScalar_eq b y hb
      by_cases hy : y = 0
      · subst hy
        simp only [if_pos rfl]
        cases he : evalE env a <;> simp [evalE, he]
      · simp [if_neg hy]
    | none => rfl

theorem evalE_mkSub (env : String → Option ℚ) (a b : Expr) :
    evalE env (mkSub a b) = evalE env (Expr.Sub a b) := by
  rw [mkSub]
  cases ha : asScalar a with
  | some x =>
    obtain rfl := asScalar_eq a x ha
    cases hb : asScalar b with
    | some y =>
      obtain rfl := asScalar_eq b y hb
      simp [evalE]
    | none => rfl
  | none =>
    cases hb : asScalar b with
    | some y =>
      obtain rfl := asScalar_eq b y hb
      by_cases hy : y = 0
      · subst hy
        simp only [if_pos rfl]
        cases he : evalE env a <;> simp [evalE, he]
      · simp [if_neg hy]
    | none => rfl

theorem evalE_mkMul (env : String → Option ℚ) (a b : Expr) :
    evalE env (mkMul a b) = evalE env (Expr.Mul a b) := by
  rw [mkMul]
  cases ha : asScalar a with
  | some x =>
    obtain rfl := asScalar_eq a x ha
    cases hb : asScalar b with
    | some y =>
      obtain rfl := asScalar_eq b y hb
      simp [evalE]
    | none =>
      by_cases hx : x = 1
      · subst hx
        simp only [if_pos rfl]
        cases he : evalE env b <;> simp [evalE, he]
      · simp [if_neg hx]
  | none =>
    cases hb : asScalar b with
    | some y =>
      obtain rfl := asScalar_eq b y hb
      by_cases hy : y = 1
      · subst hy
        simp only [if_pos rfl]
        cases he : evalE env a <;> simp [evalE, he]
      · simp [if_neg hy]
    | none => rfl

theorem evalE_mkDiv (env : String → Option ℚ) (a b : Expr) :
    evalE env (mkDiv a b) = evalE env (Expr.Div a b) := by
  rw [mkDiv]
  cases ha : asScalar a with
  | some x =>
    obtain rfl := asScalar_eq a x ha
    cases hb : asScalar b with
    | some y =>
      obtain rfl := asScalar_eq b y hb
      simp [evalE]
    | none => rfl
  | none =>
    cases hb : asScalar b with
    | some y =>
      obtain rfl := asScalar_eq b y hb
      by_cases hy : y = 1
      · subst hy
        simp only [if_pos rfl]
        cases he : evalE env a <;> simp [evalE, he]
      · simp [if_neg hy]
    | none => rfl

theorem evalE_mkNeg (env : String → Option ℚ) (a : Expr) :
    evalE env (mkNeg a) = evalE env (Expr.Neg a) := by
  rw [mkNeg]
  cases ha : asScalar a with
  | some x =>
    obtain rfl := asScalar_eq a x ha
    simp [evalE]
  | none => rfl

theorem evalE_mkPow (env : String → Option ℚ) (a : Expr) (n : ℕ) :
    evalE env (mkPow a n) = evalE env (Expr.Pow a n) := by
  rw [mkPow]
  cases ha : asScalar a with
  | some x =>
    obtain rfl := asScalar_eq a x ha
    simp [evalE]
  | none => rfl

theorem evalE_simplify (env : String → Option ℚ) (e : Expr) :
    evalE env (simplify e) = evalE env e := by
  induction e with
  | Add a b iha ihb =>
    rw [simplify, evalE_mkAdd]
    simp only [evalE, iha, ihb]
  | Sub a b iha ihb =>
    rw [simplify, evalE_mkSub]
    simp only [evalE, iha, ihb]
  | Mul a b iha ihb =>
    rw [simplify, evalE_mkMul]
    simp only [evalE, iha, ihb]
  | Div a b iha ihb =>
    rw [simplify, evalE_mkDiv]
    simp only [evalE, iha, ihb]
  | Neg a iha =>
    rw [simplify, evalE_mkNeg]
    simp only [evalE, iha]
  | Pow a n iha =>
    rw [simplify, evalE_mkPow]
    simp only [evalE, iha]
  | _ => rfl

theorem mem_of_lookup_eq_some {α β : Type} [BEq α] [LawfulBEq α]
    {l : List (α × β)} {k : α} {v : β} (h : List.lookup k l = some v) :
    (k, v) ∈ l := by
  induction l with
  | nil => simp [List.lookup] at h
  | cons p t ih =>
    cases p with
    | mk a b =>
      rw [List.lookup] at h
      cases hab : (k == a) with
      | true =>
        simp only [hab] at h
        obtain rfl : b = v := Option.some.inj h
        have hk : k = a := eq_of_beq hab
        subst hk
        exact List.mem_cons_self _ _
      | false =>
        simp only [hab] at h
        exact List.mem_cons_of_mem _ (ih h)

theorem lookup_hit {env : String → Option ℚ} {cache : KnownEvals}
    (hc : CacheOK env cache) {e : Expr} {v : Option ℚ}
    (hl : List.lookup e cache = some v) : v = evalE env e :=
  hc (e, v) (mem_of_lookup_eq_some hl)

/-- The hit/record behaviour of `evalKnown` on any node whose value does
not come from recursive calls. -/
theorem evalKnown_leaf {env : String → Option ℚ} (e : Expr)
    (cache : KnownEvals) (hc : CacheOK env cache) (w : Option ℚ)
    (he : evalE env e = w)
    (hm : evalKnown env e cache
        = match List.lookup e cache with
          | some v => (v, cache)
          | none => (w, (e, w) :: cache)) :
    (evalKnown env e cache).1 = evalE env e ∧
      CacheOK env (evalKnown env e cache).2 := by
  rw [hm]
  cases hl : List.lookup e cache with
  | some v => exact ⟨lookup_hit hc hl, hc⟩
  | none =>
    refine ⟨he.symm, ?_⟩
    intro p hp
    rcases List.mem_cons.mp hp with rfl | hp'
    · exact he.symm
    · exact hc p hp'

/-- Evaluation with the known-evaluations cache is correct: starting from
a consistent cache it returns the plain evaluator's value and leaves the
cache consistent. -/
theorem evalKnown_correct (env : String → Option ℚ) (e : Expr) :
    ∀ cache : KnownEvals, CacheOK env cache →
      (evalKnown env e cache).1 = evalE env e ∧
        CacheOK env (evalKnown env e cache).2 := by
  induction e
  case Add a b iha ihb =>
    intro cache hc
    cases hl : List.lookup (Expr.Add a b) cache with
    | some w =>
      simp only [evalKnown, hl]
      exact ⟨lookup_hit hc hl, hc⟩
    | none =>
      simp only [evalKnown, hl]
      obtain ⟨h1a, h2a⟩ := iha cache hc
      obtain ⟨h1b, h2b⟩ := ihb _ h2a
      rw [h1a, h1b]
      cases hE1 : evalE env a with
      | none =>
        refine ⟨by simp [recordBin, evalE, hE1], ?_⟩
        intro p hp
        rcases List.mem_cons.mp hp with rfl | hp'
        · simp [evalE, hE1]
        · exact h2b p hp'
      | some xv =>
        cases hE2 : evalE env b with
        | none =>
          refine ⟨by simp [recordBin, evalE, hE1, hE2], ?_⟩
          intro p hp
          rcases List.mem_cons.mp hp with rfl | hp'
          · simp [evalE, hE1, hE2]
          · exact h2b p hp'
        | some yv =>
          refine ⟨by simp [recordBin, evalE, hE1, hE2], ?_⟩
          intro p hp
          rcases List.mem_cons.mp hp with rfl | hp'
          · simp [evalE, hE1, hE2]
          · exact h2b p hp'
  case Sub a b iha ihb =>
    intro cache hc
    cases hl : List.lookup (Expr.Sub a b) cache with
    | some w =>
      simp only [evalKnown, hl]
      exact ⟨lookup_hit hc hl, hc⟩
    | none =>
      simp only [evalKnown, hl]
      obtain ⟨h1a, h2a⟩ := iha cache hc
      obtain ⟨h1b, h2b⟩ := ihb _ h2a
      rw [h1a, h1b]
      cases hE1 : evalE env a with
      | none =>
        refine ⟨by simp [recordBin, evalE, hE1], ?_⟩
        intro p hp
        rcases List.mem_cons.mp hp with rfl | hp'
        · simp [evalE, hE1]
        · exact h2b p hp'
      | some xv =>
        cases hE2 : evalE env b with
        | none =>
          refine ⟨by simp [recordBin, evalE, hE1, hE2], ?_⟩
          intro p hp
          rcases List.mem_cons.mp hp with rfl | hp'
          · simp [evalE, hE1, hE2]
          · exact h2b p hp'
        | some yv =>
          refine ⟨by simp [recordBin, evalE, hE1, hE2], ?_⟩
          intro p hp
          rcases List.mem_cons.mp hp with rfl | hp'
          · simp [evalE, hE1, hE2]
          · exact h2b p hp'
  case Mul a b iha ihb =>
    intro cache hc
    cases hl : List.lookup (Expr.Mul a b) cache with
    | some w =>
      simp only [evalKnown, hl]
      exact ⟨lookup_hit hc hl, hc⟩
    | none =>
      simp only [evalKnown, hl]
      obtain ⟨h1a, h2a⟩ := iha cache hc
      obtain ⟨h1b, h2b⟩ := ihb _ h2a
      rw [h1a, h1b]
      cases hE1 : evalE env a with
      | none =>
        refine ⟨by simp [recordBin, evalE, hE1], ?_⟩
        intro p hp
        rcases List.mem_cons.mp hp with rfl | hp'
        · simp [evalE, hE1]
        · exact h2b p hp'
      | some xv =>
        cases hE2 : evalE env b with
        | none =>
          refine ⟨by simp [recordBin, evalE, hE1, hE2], ?_⟩
          intro p hp
          rcases List.mem_cons.mp hp with rfl | hp'
          · simp [evalE, hE1, hE2]
          · exact h2b p hp'
        | some yv =>
          refine ⟨by simp [recordBin, evalE, hE1, hE2], ?_⟩
          intro p hp
          rcases List.mem_cons.mp hp with rfl | hp'
          · simp [evalE, hE1, hE2]
          · exact h2b p hp'
  case Div a b iha ihb =>
    intro cache hc
    cases hl : List.lookup (Expr.Div a b) cache with
    | some w =>
      simp only [evalKnown, hl]
      exact ⟨lookup_hit hc hl, hc⟩
    | none =>
      simp only [evalKnown, hl]
      obtain ⟨h1a, h2a⟩ := iha cache hc
      obtain ⟨h1b, h2b⟩ := ihb _ h2a
      rw [h1a, h1b]
      cases hE1 : evalE env a with
      | none =>
        refine ⟨by simp [recordBin, evalE, hE1], ?_⟩
        intro p hp
        rcases List.mem_cons.mp hp with rfl | hp'
        · simp [evalE, hE1]
        · exact h2b p hp'
      | some xv =>
        cases hE2 : evalE env b with
        | none =>
          refine ⟨by simp [recordBin, evalE, hE1, hE2], ?_⟩
          intro p hp
          rcases List.mem_cons.mp hp with rfl | hp'
          · simp [evalE, hE1, hE2]
          · exact h2b p hp'
        | some yv =>
          refine ⟨by simp [recordBin, evalE, hE1, hE2], ?_⟩
          intro p hp
          rcases List.mem_cons.mp hp with rfl | hp'
          · simp [evalE, hE1, hE2]
          · exact h2b p hp'
  case Neg a iha =>
    intro cache hc
    cases hl : List.lookup (Expr.Neg a) cache with
    | some w =>
      simp only [evalKnown, hl]
      exact ⟨lookup_hit hc hl, hc⟩
    | none =>
      simp only [evalKnown, hl]
      obtain ⟨h1a, h2a⟩ := iha cache hc
      rw [h1a]
      cases hE1 : evalE env a with
      | none =>
        refine ⟨by simp [recordUn, evalE, hE1], ?_⟩
        intro p hp
        rcases List.mem_cons.mp hp with rfl | hp'
        · simp [evalE, hE1]
        · exact h2a p hp'
      | some xv =>
        refine ⟨by simp [recordUn, evalE, hE1], ?_⟩
        intro p hp
        rcases List.mem_cons.mp hp with rfl | hp'
        · simp [evalE, hE1]
        · exact h2a p hp'
  case Pow a n iha =>
    intro cache hc
    cases hl : List.lookup (Expr.Pow a n) cache with
    | some w =>
      simp only [evalKnown, hl]
      exact ⟨lookup_hit hc hl, hc⟩
    | none =>
      simp only [evalKnown, hl]
      obtain ⟨h1a, h2a⟩ := iha cache hc
      rw [h1a]
      cases hE1 : evalE env a with
      | none =>
        refine ⟨by simp [recordUn, evalE, hE1], ?_⟩
        intro p hp
        rcases List.mem_cons.mp hp with rfl | hp'
        · simp [evalE, hE1]
        · exact h2a p hp'
      | some xv =>
        refine ⟨by simp [recordUn, evalE, hE1], ?_⟩
        intro p hp
        rcases List.mem_cons.mp hp with rfl | hp'
        · simp [evalE, hE1]
        · exact h2a p hp'
  all_goals intro cache hc
  all_goals exact evalKnown_leaf _ _ hc _ rfl rfl

/-- Evaluating a list of equations through a consistent cache gives the
plain evaluation of every equation. -/
theorem evalListKnown_eq (env : String → Option ℚ) (l : List Expr) :
    ∀ cache : KnownEvals, CacheOK env cache →
      evalListKnown env l cache = l.map (evalE env) := by
  induction l with
  | nil => intro cache hc; rfl
  | cons e t ih =>
    intro cache hc
    obtain ⟨h1, h2⟩ := evalKnown_correct env e cache hc
    rw [evalListKnown, h1, ih _ h2, List.map_cons]

/-- Compiler correctness for the python conversion: running the compiled
instructions of `e` followed by `rest` pushes `e`'s value (or fails when
plain evaluation does). -/
theorem runPy_compile (env : String → Option ℚ) (e : Expr) :
    ∀ (rest : List PyInstr) (st : List ℚ),
      runPy env (compileToPython e ++ rest) st =
        match evalE env e with
        | some v => runPy env rest (v :: st)
        | none => none := by
  induction e
  case Scalar v =>
    intro rest st
    simp [compileToPython, runPy, evalE]
  case Variable n ds =>
    intro rest st
    cases he : env n <;> simp [compileToPython, runPy, evalE, he]
  case SpatialVariable n ds =>
    intro rest st
    cases he : env n <;> simp [compileToPython, runPy, evalE, he]
  case Param n =>
    intro rest st
    cases he : env n <;> simp [compileToPython, runPy, evalE, he]
  case Add a b iha ihb =>
    intro rest st
    rw [compileToPython]
    rw [List.append_assoc, List.append_assoc, iha]
    cases hE1 : evalE env a with
    | none => simp [evalE, hE1]
    | some x =>
      change runPy env (compileToPython b ++ PyInstr.addI :: rest) (x :: st) = _
      rw [ihb]
      cases hE2 : evalE env b with
      | none => simp [evalE, hE1, hE2]
      | some y => simp [evalE, runPy, hE1, hE2]
  case Sub a b iha ihb =>
    intro rest st
    rw [compileToPython]
    rw [List.append_assoc, List.append_assoc, iha]
    cases hE1 : evalE env a with
    | none => simp [evalE, hE1]
    | some x =>
      change runPy env (compileToPython b ++ PyInstr.subI :: rest) (x :: st) = _
      rw [ihb]
      cases hE2 : evalE env b with
      | none => simp [evalE, hE1, hE2]
      | some y => simp [evalE, runPy, hE1, hE2]
  case Mul a b iha ihb =>
    intro rest st
    rw [compileToPython]
    rw [List.append_assoc, List.append_assoc, iha]
    cases hE1 : evalE env a with
    | none => simp [evalE, hE1]
    | some x =>
      change runPy env (compileToPython b ++ PyInstr.mulI :: rest) (x :: st) = _
      rw [ihb]
      cases hE2 : evalE env b with
      | none => simp [evalE, hE1, hE2]
      | some y => simp [evalE, runPy, hE1, hE2]
  case Div a b iha ihb =>
    intro rest st
    rw [compileToPython]
    rw [List.append_assoc, List.append_assoc, iha]
    cases hE1 : evalE env a with
    | none => simp [evalE, hE1]
    | some x =>
      change runPy env (compileToPython b ++ PyInstr.divI :: rest) (x :: st) = _
      rw [ihb]
      cases hE2 : evalE env b with
      | none => simp [evalE, hE1, hE2]
      | some y => simp [evalE, runPy, hE1, hE2]
  case Neg a iha =>
    intro rest st
    rw [compileToPython]
    rw [List.append_assoc, iha]
    cases hE1 : evalE env a with
    | none => simp [evalE, hE1]
    | some x => simp [evalE, runPy, hE1]
  case Pow a n iha =>
    intro rest st
    rw [compileToPython]
    rw [List.append_assoc, iha]
    cases hE1 : evalE env a with
    | none => simp [evalE, hE1]
    | some x => simp [evalE, runPy, hE1]
  all_goals intro rest st
  all_goals simp [compileToPython, runPy, evalE]

/-- Evaluation through the python conversion agrees with plain
evaluation. -/
theorem pyEvaluate_eq (env : String → Option ℚ) (e : Expr) :
    pyEvaluate env e = evalE env e := by
  rw [pyEvaluate]
  have h := runPy_compile env e [] []
  rw [List.append_nil] at h
  rw [h]
  cases evalE env e with
  | none => rfl
  | some v => rfl

/-- Simplifying every equation does not change the plain evaluation of
the model. -/
theorem map_evalE_maybe_simplify (env : String → Option ℚ)
    (simplifyFlag : Bool) (model : List Expr) :
    (model.map (fun e => if simplifyFlag then simplify e else e)).map (evalE env)
      = model.map (evalE env) := by
  cases simplifyFlag
  · simp
  · rw [List.map_map]
    apply List.map_congr_left
    intro e _
    simp only [Function.comp_apply, if_pos rfl]
    exact evalE_simplify env e

/-- Claim C6: evaluating an assembled model naively, after the
algebraic-simplification pass, with or without cached known evaluations,
and whether or not converted to python — in every combination of the
integration test's flags — produces the same result vector (exact
equality over the rationals, which is stronger than the test's tight
floating-point tolerance). -/
theorem claim_C6_optimisations (simplifyFlag use_known_evals to_python : Bool)
    (model : List Expr) (env : String → Option ℚ) :
    evaluate_model simplifyFlag use_known_evals to_python model env
      = evaluate_model false false false model env := by
  have hbase : evaluate_model false false false model env
      = model.map (evalE env) := by
    simp [evaluate_model]
  rw [hbase]
  cases to_python
  · cases use_known_evals
    · rw [evaluate_model]
      simp only [Bool.false_eq_true, if_false]
      exact map_evalE_maybe_simplify env simplifyFlag model
    · rw [evaluate_model]
      simp only [Bool.false_eq_true, if_false, if_true]
      rw [evalListKnown_eq env _ [] (by intro p hp; cases hp)]
      exact map_evalE_maybe_simplify env simplifyFlag model
  · rw [evaluate_model]
    simp only [if_true]
    rw [show ((model.map (fun e => if simplifyFlag then simplify e else e)).map
        (pyEvaluate env))
      = (model.map (fun e => if simplifyFlag then simplify e else e)).map
        (evalE env) from List.map_congr_left (fun e _ => pyEvaluate_eq env e)]
    exact map_evalE_maybe_simplify env simplifyFlag model

/-! ## Claims C7–C10: the submodel protocol -/

theorem except_bind_ok {ε α β : Type} {x : Except ε α} {f : α → Except ε β}
    {r : β} (h : x >>= f = Except.ok r) :
    ∃ a, x = Except.ok a ∧ f a = Except.ok r := by
  cases x with
  | ok a => exact ⟨a, rfl, h⟩
  | error e => exact Except.noConfusion h

theorem update_not_mem (m : VarMap) (entries : List (String × Expr))
    (k : String) (h : ∀ p ∈ entries, k ≠ p.1) :
    m.update entries k = m k := by
  induction entries with
  | nil => rfl
  | cons p t ih =>
    have hne : (k == p.1) = false :=
      beq_eq_false_iff_ne.mpr (h p (List.mem_cons_self p t))
    have ht : ∀ q ∈ t, k ≠ q.1 := fun q hq => h q (List.mem_cons_of_mem p hq)
    have step := ih ht
    simp only [VarMap.update, List.lookup] at step ⊢
    cases p with
    | mk a b =>
      simp only [hne]
      exact step

/-- Claim C7: `get_coupled_variables` fails with a `KeyError`-class lookup
failure (naming a missing key) whenever one of its required dependencies —
the x-averaged particle concentration distribution, the particle sizes,
the x-averaged electrode temperature or the area-weighted particle-size
distribution — has not been registered in the mapping. -/
theorem claim_C7_missing_dependency (d : String)
    (hd : d = "Negative" ∨ d = "Positive") (vars : VarMap)
    (h : ∃ k ∈ requiredKeys d, vars k = none) :
    ∃ k, get_coupled_variables d vars = Except.error k ∧ vars k = none := by
  cases h1 : vars (kConcDist d) with
  | none =>
    refine ⟨kConcDist d, ?_, h1⟩
    simp only [get_coupled_variables, fetch, h1]
    rfl
  | some c1 =>
    cases h2 : vars (kSizes d) with
    | none =>
      refine ⟨kSizes d, ?_, h2⟩
      simp only [get_coupled_variables, fetch, h1, h2]
      rfl
    | some c2 =>
      cases h3 : vars (kTemp d) with
      | none =>
        refine ⟨kTemp d, ?_, h3⟩
        simp only [get_coupled_variables, fetch, h1, h2, h3]
        rfl
      | some c3 =>
        cases h4 : vars (kAreaDist d) with
        | none =>
          refine ⟨kAreaDist d, ?_, h4⟩
          rcases hd with rfl | rfl <;>
            (simp only [get_coupled_variables, fetch, h1, h2, h3, h4]; rfl)
        | some c4 =>
          exfalso
          obtain ⟨k, hk, hnone⟩ := h
          simp only [requiredKeys, List.mem_cons, List.not_mem_nil,
            or_false] at hk
          rcases hk with rfl | rfl | rfl | rfl
          · rw [h1] at hnone; exact Option.noConfusion hnone
          · rw [h2] at hnone; exact Option.noConfusion hnone
          · rw [h3] at hnone; exact Option.noConfusion hnone
          · rw [h4] at hnone; exact Option.noConfusion hnone

/-- Witness for C7: the empty mapping is missing the concentration
distribution, so the call fails naming that key. -/
theorem claim_C7_witness :
    ∃ k, get_coupled_variables "Negative" varsEmpty = Except.error k ∧
      varsEmpty k = none :=
  claim_C7_missing_dependency "Negative" (Or.inl rfl) varsEmpty
    ⟨kConcDist "Negative", by simp [requiredKeys], rfl⟩

/-- Claim C8: `PrimaryBroadcast(expr, D)` inserts `D` as the new innermost
(primary) domain under `expr`'s existing domain stack, and
`SecondaryBroadcast(expr, D)` inserts `D` as the new secondary domain,
preserving `expr`'s primary domain; in particular a `SecondaryBroadcast`
reinstates an electrode (x) domain that an x-averaged quantity was
averaged out of, as in `get_fundamental_variables`. -/
theorem claim_C8_broadcast_domains (e : Expr) (d : String) :
    (Expr.PrimaryBroadcast e d).domains = d :: e.domains ∧
    (∀ p rest, e.domains = p :: rest →
      (Expr.SecondaryBroadcast e d).domains = p :: d :: rest) ∧
    (Expr.SecondaryBroadcast exprW "negative electrode").domains
      = ["negative particle", "negative electrode", "current collector"] := by
  refine ⟨by simp [Expr.domains], ?_, by simp [Expr.domains, exprW]⟩
  intro p rest h
  simp [Expr.domains, h]

/-- Witness for C8 at the concrete x-averaged concentration `exprW`. -/
theorem claim_C8_witness :
    (Expr.PrimaryBroadcast exprW "negative particle size").domains
        = "negative particle size" :: exprW.domains ∧
    (Expr.SecondaryBroadcast exprW "negative electrode").domains
        = "negative particle" :: "negative electrode" :: ["current collector"] :=
  ⟨(claim_C8_broadcast_domains exprW "negative particle size").1,
   (claim_C8_broadcast_domains exprW "negative electrode").2.1
     "negative particle" ["current collector"] (by rfl)⟩

/-- Counterexample for C9: on the unhandled domain `"Separator"`, with a
mapping providing the three keys that `set_rhs` looks up, `set_rhs`
returns normally — registering no rhs (`none`) — instead of failing, since
its `if`/`elif` branches only assign `self.rhs` and nothing after them
uses an unbound name. -/
theorem claim_C9_counterexample :
    set_rhs "Separator" varsSep = Except.ok none := by
  rfl

/-- Claim C9 (amended): for any domain other than `"Negative"` and
`"Positive"`, `get_fundamental_variables`, `set_boundary_conditions` and
`set_initial_conditions` fail before returning (a use of a name bound in
no branch raises an `UnboundLocalError`, or an earlier dictionary lookup
raises a `KeyError`); `set_rhs`, however, does not fail when its lookups
succeed: it returns without registering any rhs. -/
theorem claim_C9_amended (d : String) (h1 : d ≠ "Negative")
    (h2 : d ≠ "Positive") :
    (∃ msg, get_fundamental_variables d = Except.error msg) ∧
    (∀ vars : VarMap, ∃ msg,
      set_boundary_conditions d vars = Except.error msg) ∧
    (∀ vars : VarMap, ∃ msg,
      set_initial_conditions d vars = Except.error msg) ∧
    (∀ vars : VarMap,
      set_rhs d vars = Except.ok none ∨
        ∃ msg, set_rhs d vars = Except.error msg) := by
  refine ⟨?_, ?_, ?_, ?_⟩
  · refine ⟨"UnboundLocalError: R", ?_⟩
    simp only [get_fundamental_variables, bindFundamental, if_neg h1, if_neg h2]
  · intro vars
    cases e1 : vars (kConcDist d) with
    | none =>
      exact ⟨kConcDist d, by simp only [set_boundary_conditions, fetch, e1]; rfl⟩
    | some c1 =>
      cases e2 : vars (kSurfConcDist d) with
      | none =>
        exact ⟨kSurfConcDist d,
          by simp only [set_boundary_conditions, fetch, e1, e2]; rfl⟩
      | some c2 =>
        cases e3 : vars (kCurrentDist d) with
        | none =>
          exact ⟨kCurrentDist d,
            by simp only [set_boundary_conditions, fetch, e1, e2, e3]; rfl⟩
        | some c3 =>
          cases e4 : vars (kSizes d) with
          | none =>
            exact ⟨kSizes d,
              by simp only [set_boundary_conditions, fetch, e1, e2, e3, e4]; rfl⟩
          | some c4 =>
            cases e5 : vars (kTemp d) with
            | none =>
              exact ⟨kTemp d,
                by simp only [set_boundary_conditions, fetch,
                  e1, e2, e3, e4, e5]; rfl⟩
            | some c5 =>
              refine ⟨"UnboundLocalError: rbc", ?_⟩
              simp only [set_boundary_conditions, fetch, e1, e2, e3, e4, e5,
                if_neg h1, if_neg h2]
              rfl
  · intro vars
    cases e1 : vars (kConcDist d) with
    | none =>
      exact ⟨kConcDist d, by simp only [set_initial_conditions, fetch, e1]; rfl⟩
    | some c1 =>
      refine ⟨"UnboundLocalError: c_init", ?_⟩
      simp only [set_initial_conditions, fetch, e1, if_neg h1, if_neg h2]
      rfl
  · intro vars
    cases e1 : vars (kConcDist d) with
    | none =>
      exact Or.inr ⟨kConcDist d, by simp only [set_rhs, fetch, e1]; rfl⟩
    | some c1 =>
      cases e2 : vars (kFluxDist d) with
      | none =>
        exact Or.inr ⟨kFluxDist d, by simp only [set_rhs, fetch, e1, e2]; rfl⟩
      | some c2 =>
        cases e3 : vars (kSizes d) with
        | none =>
          exact Or.inr ⟨kSizes d,
            by simp only [set_rhs, fetch, e1, e2, e3]; rfl⟩
        | some c3 =>
          refine Or.inl ?_
          simp only [set_rhs, fetch, e1, e2, e3, if_neg h1, if_neg h2]
          rfl

/-- Witness for C9 (amended) at the concrete domain `"Separator"`. -/
theorem claim_C9_witness :
    (∃ msg, get_fundamental_variables "Separator" = Except.error msg) ∧
    (∃ msg, set_initial_conditions "Separator" varsSep = Except.error msg) :=
  ⟨(claim_C9_amended "Separator" (by decide) (by decide)).1,
   (claim_C9_amended "Separator" (by decide) (by decide)).2.2.1 varsSep⟩

/-- Frame property of the final triple `dict.update` chain of
`get_coupled_variables`. -/
theorem triple_update_frame (vars : VarMap) (d : String)
    (N_s N_s_xav Nd : Expr) (k : String)
    (hk1 : ¬k = d ++ " particle flux")
    (hk2 : ¬k = "X-averaged " ++ strLower d ++ " particle flux")
    (hk3 : ¬k = kFluxDist d)
    (hk4 : ¬k = "Total lithium in " ++ strLower d ++ " electrode [mol]") :
    ((vars.update (standardFluxVariables d N_s N_s_xav)).update
        [(kFluxDist d, Nd)]).update
      (totalConcentrationVariables d
        ((vars.update (standardFluxVariables d N_s N_s_xav)).update
          [(kFluxDist d, Nd)])) k = vars k := by
  rw [update_not_mem, update_not_mem, update_not_mem]
  · intro p hp
    simp only [standardFluxVariables, List.mem_cons, List.not_mem_nil,
      or_false] at hp
    rcases hp with rfl | rfl
    · exact hk1
    · exact hk2
  · intro p hp
    simp only [List.mem_singleton] at hp
    subst hp
    exact hk3
  · intro p hp
    simp only [totalConcentrationVariables, List.mem_singleton] at hp
    subst hp
    exact hk4

/-- Claim C10: any mapping on which `get_coupled_variables` succeeds is
returned extended: every key the method does not itself write keeps
exactly the value it had in the input mapping (so the method only adds
the flux, distribution-flux and total-concentration entries named by
`writtenKeys`). -/
theorem claim_C10_frame (d : String) (vars result : VarMap)
    (h : get_coupled_variables d vars = Except.ok result) (k : String)
    (hk : k ∉ writtenKeys d) : result k = vars k := by
  simp only [writtenKeys, List.mem_cons, List.not_mem_nil, or_false,
    not_or] at hk
  obtain ⟨hk1, hk2, hk3, hk4⟩ := hk
  rw [get_coupled_variables] at h
  obtain ⟨c1, h1, h⟩ := except_bind_ok h
  obtain ⟨c2, h2, h⟩ := except_bind_ok h
  obtain ⟨c3, h3, h⟩ := except_bind_ok h
  by_cases hneg : d = "Negative"
  · subst hneg
    rw [if_pos rfl] at h
    obtain ⟨cN, h4, h⟩ := except_bind_ok h
    obtain ⟨c5, h5, h⟩ := except_bind_ok h
    have hres := Except.ok.inj h
    subst hres
    exact triple_update_frame vars "Negative" _ _ _ k hk1 hk2 hk3 hk4
  · by_cases hpos : d = "Positive"
    · subst hpos
      rw [if_neg hneg, if_pos rfl] at h
      obtain ⟨cN, h4, h⟩ := except_bind_ok h
      obtain ⟨c5, h5, h⟩ := except_bind_ok h
      have hres := Except.ok.inj h
      subst hres
      exact triple_update_frame vars "Positive" _ _ _ k hk1 hk2 hk3 hk4
    · rw [if_neg hneg, if_neg hpos] at h
      obtain ⟨y, hy, h⟩ := except_bind_ok h
      exact Except.noConfusion hy

/-- Witness for C10: on the fully-populated mapping `varsW` the call
succeeds, and an unrelated key keeps its (absent) value. -/
theorem claim_C10_witness : coupledW "unrelated" = varsW "unrelated" :=
  claim_C10_frame "Negative" varsW coupledW (by rfl) "unrelated" (by decide)

end PyBaMM
